import Mathlib

/-!
Verification development for the Realtor Lead Radar repository.

The frontend (TypeScript, under frontend/src) is embedded directly:
JavaScript values that flow through filter objects are modelled by
`JsValue`, JavaScript objects by association lists with unique keys, and
the relevant functions (`sanitizeFilters`, `downloadPropertyExport`,
`setFilter`, `setOffset`, `propertiesQueryKey`) are translated
function-by-function from the source.

The backend (FastAPI, `app/services/properties.py` and
`app/services/usage.py`) is not part of the available sources; the
Scoring Engine, Property Cache, Lead Pack Grouper and Plan Quota
Evaluator are modelled from the specification, as marked in the
individual doc comments.
-/

namespace LeadRadar

/-- A JavaScript value as it appears in filter objects and query params:
a string, a finite number, `NaN`, `null`, or `undefined`. -/
inductive JsValue where
  | str (s : String)
  | num (q : ℚ)
  | nan
  | null
  | undef
deriving DecidableEq

/-- A JavaScript object, modelled as an association list with (in all
uses below) pairwise-distinct keys, in property-insertion order. -/
abbrev Obj := List (String × JsValue)

/-- Property read `o[k]`: the value at the first occurrence of key `k`. -/
def lookupList {α : Type} (k : String) : List (String × α) → Option α
  | [] => none
  | (k', v) :: t => if k' = k then some v else lookupList k t

/-- Property write `o[k] = v` (also the semantics of a spread
`\x7b...o, k: v\x7d`): replace the value at the first occurrence of `k`,
or append the binding when `k` is absent. -/
def setList {α : Type} : List (String × α) → String → α → List (String × α)
  | [], k, v => [(k, v)]
  | (k', v') :: t, k, v => if k' = k then (k, v) :: t else (k', v') :: setList t k v

/-- The keys of an object, in order. -/
def keysOf {α : Type} (l : List (String × α)) : List String :=
  l.map Prod.fst

/-- JavaScript `String.prototype.trim`, on the underlying character
list: strip whitespace from both ends. -/
def jsTrim (s : String) : String :=
  String.mk (((s.data.dropWhile Char.isWhitespace).reverse.dropWhile Char.isWhitespace).reverse)

/-- Value of an unsigned digit run, most significant digit first. -/
def digitsToNat (cs : List Char) : Nat :=
  cs.foldl (fun n c => 10 * n + (c.toNat - 48)) 0

/-- JavaScript `Number(s)` on a string, restricted to the decimal
numerals that occur as count headers: optional sign, digits, optional
fractional part. The empty (or all-whitespace) string converts to `0`;
anything else that does not parse is `NaN`, modelled as `none`.
Exponent, hexadecimal and `Infinity` forms are not modelled. -/
def jsNumber (s : String) : Option ℚ :=
  let t := (jsTrim s).data
  if t = [] then some 0
  else
    let signAndRest : ℚ × List Char :=
      match t with
      | '-' :: r => (-1, r)
      | '+' :: r => (1, r)
      | r => (1, r)
    match (signAndRest.2.span Char.isDigit : List Char × List Char) with
    | (intPart, []) =>
        if intPart = [] then none
        else some (signAndRest.1 * (digitsToNat intPart : ℚ))
    | (intPart, '.' :: fracPart) =>
        if fracPart.all Char.isDigit ∧ (intPart ≠ [] ∨ fracPart ≠ []) then
          some (signAndRest.1 *
            ((digitsToNat intPart : ℚ) + (digitsToNat fracPart : ℚ) / (10 ^ fracPart.length)))
        else none
    | _ => none

/-- The body of the `forEach` in `sanitizeFilters`
(`frontend/src/api/properties.ts`): skip `undefined` and `null`
values, trim strings and skip those that trim to the empty string,
assign numbers (`NaN` included — `typeof NaN` is `'number'`)
unchanged. -/
def sanitizeStep (params : Obj) (kv : String × JsValue) : Obj :=
  match kv.2 with
  | JsValue.undef => params
  | JsValue.null => params
  | JsValue.str s =>
      let trimmed := jsTrim s
      if trimmed.length = 0 then params else setList params kv.1 (JsValue.str trimmed)
  | JsValue.num q => setList params kv.1 (JsValue.num q)
  | JsValue.nan => setList params kv.1 JsValue.nan

/-- From `frontend/src/api/properties.ts`, `sanitizeFilters`: build
the query parameter object entry by entry, left to right. -/
def sanitizeFilters (filters : Obj) : Obj :=
  filters.foldl sanitizeStep []

/-- The per-value retention rule the sanitizer implements, as the
claim states it: `undefined` and `null` are dropped, strings are
trimmed and dropped when empty after trimming, numbers pass through
unchanged. Named separately so `sanitizeFilters` can be proved
equivalent to it. -/
def retainedValue : JsValue → Option JsValue
  | JsValue.undef => none
  | JsValue.null => none
  | JsValue.str s =>
      if (jsTrim s).length = 0 then none else some (JsValue.str (jsTrim s))
  | JsValue.num q => some (JsValue.num q)
  | JsValue.nan => some JsValue.nan

/-- From `frontend/src/api/properties.ts`, the tail of
`downloadPropertyExport`: `countHeader ? Number(countHeader) || 0 : 0`
on the `x-property-count` response header. A missing or empty header is
falsy; a `NaN` or zero conversion is falsy; otherwise the converted
number is returned. -/
def exportCountOfHeaders (headers : List (String × String)) : ℚ :=
  match lookupList "x-property-count" headers with
  | none => 0
  | some h =>
      if h = "" then 0
      else
        match jsNumber h with
        | none => 0
        | some q => if q = 0 then 0 else q

/-- From `frontend/src/api/properties.ts`, `downloadPropertyExport`:
sanitize the filters into request params, and resolve with the row
count reported by the `x-property-count` response header. -/
def downloadPropertyExport (filters : Obj) (headers : List (String × String)) : Obj × ℚ :=
  (sanitizeFilters filters, exportCountOfHeaders headers)

/-- From `frontend/src/store/filterStore.ts`, `defaultFilters`: the
initial `PropertyFilters` object, transcribed key by key in declaration
order. -/
def defaultFilters : Obj :=
  [("search", JsValue.null),
   ("city", JsValue.null),
   ("state", JsValue.null),
   ("postal_code", JsValue.null),
   ("min_equity", JsValue.null),
   ("min_score", JsValue.null),
   ("min_value_gap", JsValue.null),
   ("min_market_value", JsValue.null),
   ("max_market_value", JsValue.null),
   ("min_assessed_value", JsValue.null),
   ("max_assessed_value", JsValue.null),
   ("owner_occupancy", JsValue.null),
   ("center_latitude", JsValue.null),
   ("center_longitude", JsValue.null),
   ("radius_miles", JsValue.null),
   ("limit", JsValue.num 50),
   ("offset", JsValue.num 0)]

/-- The field names of the `PropertyFilters` interface in
`frontend/src/types/property.ts`, transcribed in declaration order. -/
def propertyFiltersFields : List String :=
  ["city", "state", "postal_code",
   "min_equity", "min_score", "min_value_gap",
   "min_market_value", "max_market_value",
   "min_assessed_value", "max_assessed_value",
   "owner_occupancy",
   "center_latitude", "center_longitude", "radius_miles",
   "search", "limit", "offset"]

/-- The filter fields the specification's design note enumerates (city,
state, postal code, min/max equity, min/max value, geo-center plus
radius, owner-occupancy, free-text search), written with the
repository's snake-case naming and reading "value" as market value. -/
def specClaimedFilterFields : List String :=
  ["city", "state", "postal_code",
   "min_equity", "max_equity",
   "min_market_value", "max_market_value",
   "center_latitude", "center_longitude", "radius_miles",
   "owner_occupancy", "search"]

/-- From `frontend/src/store/filterStore.ts`, `sanitizeFilterValue`:
trim strings (empty after trimming becomes `null`), map `NaN` to
`null`, pass every other value through. -/
def sanitizeFilterValue (v : JsValue) : JsValue :=
  match v with
  | JsValue.str s =>
      let trimmed := jsTrim s
      if trimmed.length = 0 then JsValue.null else JsValue.str trimmed
  | JsValue.nan => JsValue.null
  | v => v

/-- JavaScript `Number(x)` on a non-string value as used by
`setFilter` for the `offset` key: numbers pass through, `null` becomes
`0`, `undefined` becomes `NaN`, strings convert via `jsNumber`. -/
def jsNumberOf (v : JsValue) : JsValue :=
  match v with
  | JsValue.num q => JsValue.num q
  | JsValue.nan => JsValue.nan
  | JsValue.null => JsValue.num 0
  | JsValue.undef => JsValue.nan
  | JsValue.str s =>
      match jsNumber s with
      | some q => JsValue.num q
      | none => JsValue.nan

/-- The slice of the zustand store state the filter actions touch:
the current filter object and the saved presets. -/
structure FilterState where
  filters : Obj
  presets : List (String × Obj)
deriving DecidableEq

/-- From `frontend/src/store/filterStore.ts`, `setFilter`: spread the
current filters, overwrite the addressed key with the sanitized value,
and overwrite `offset` (with `Number(sanitized ?? 0)` when the
addressed key is itself `offset`, else with `0`). -/
def setFilter (st : FilterState) (key : String) (value : JsValue) : FilterState :=
  let sanitized := sanitizeFilterValue value
  let offsetValue :=
    if key = "offset" then
      jsNumberOf
        (match sanitized with
         | JsValue.null => JsValue.num 0
         | JsValue.undef => JsValue.num 0
         | v => v)
    else JsValue.num 0
  { st with filters := setList (setList st.filters key sanitized) "offset" offsetValue }

/-- From `frontend/src/store/filterStore.ts`, `setOffset`: spread the
current filters with only `offset` replaced. -/
def setOffset (st : FilterState) (offset : ℚ) : FilterState :=
  { st with filters := setList st.filters "offset" (JsValue.num offset) }

/-- The retention test of `propertiesQueryKey` in
`frontend/src/api/hooks.ts`: keep an entry unless its value is
`undefined`, `null`, or the (untrimmed) empty string. -/
def keepQueryEntry (v : JsValue) : Bool :=
  v ≠ JsValue.undef ∧ v ≠ JsValue.null ∧ v ≠ JsValue.str ""

/-- Comparator used by the query-key sort: ascending by field name
(`localeCompare` modelled as code-point order on the names). -/
def entryLE (a b : String × JsValue) : Prop :=
  a.1 ≤ b.1

instance : DecidableRel entryLE :=
  fun a b => inferInstanceAs (Decidable (a.1 ≤ b.1))

instance : IsTotal (String × JsValue) entryLE :=
  ⟨fun a b => le_total a.1 b.1⟩

instance : IsTrans (String × JsValue) entryLE :=
  ⟨fun _ _ _ h₁ h₂ => le_trans h₁ h₂⟩

/-- From `frontend/src/api/hooks.ts`, `propertiesQueryKey`: the literal
tag `'properties'` together with the filter entries that are not
`undefined`, `null` or `''`, sorted by field name. -/
def propertiesQueryKey (filters : Obj) : String × Obj :=
  ("properties",
   List.insertionSort entryLE (filters.filter (fun p => keepQueryEntry p.2)))

/-- Quota status, from `frontend/src/types/usage.ts`
(`'ok' | 'warning' | 'limit'`). -/
inductive QuotaStatus where
  | ok
  | warning
  | limit
deriving DecidableEq

/-- A plan quota, from `frontend/src/types/usage.ts` (`PlanQuota`):
numbers are modelled as integers since all of them are counts. -/
structure PlanQuota where
  event_type : String
  limit : Int
  used : Int
  remaining : Int
  window_days : Int
  status : QuotaStatus
deriving DecidableEq

/-- A quota alert, from `frontend/src/types/usage.ts` (`PlanAlert`). -/
structure PlanAlert where
  event_type : String
  status : QuotaStatus
  message : String
deriving DecidableEq

/-- A plan snapshot, from `frontend/src/types/usage.ts`
(`PlanSnapshot`). -/
structure PlanSnapshot where
  plan_name : String
  quotas : List PlanQuota
  alerts : List PlanAlert
deriving DecidableEq

/-- Modelled from the spec: the Plan Quota Evaluator's status rule —
`limit` when `used ≥ limit`, `warning` when `used ≥ 0.9 × limit`, else
`ok`. -/
def quotaStatusOf (L U : Nat) : QuotaStatus :=
  if L ≤ U then QuotaStatus.limit
  else if (9 / 10 : ℚ) * (L : ℚ) ≤ (U : ℚ) then QuotaStatus.warning
  else QuotaStatus.ok

/-- Modelled from the spec: the backend Plan Quota Evaluator
(`app/services/usage.py`, not among the available sources) derives one
`PlanQuota` from a plan limit `L` and a used count `U`:
`remaining = max(0, limit − used)` and the status rule above. -/
def mkPlanQuota (eventType : String) (L U windowDays : Nat) : PlanQuota :=
  { event_type := eventType
    limit := (L : Int)
    used := (U : Int)
    remaining := max 0 ((L : Int) - (U : Int))
    window_days := (windowDays : Int)
    status := quotaStatusOf L U }

/-- A usage event, from the spec's data model: event type and
timestamp (tenant identifiers and metadata do not matter here). -/
structure UsageEvent where
  event_type : String
  timestamp : Nat
deriving DecidableEq

/-- Outcome of a metered action request. -/
inductive MeterOutcome where
  | quotaExceeded
  | actionFailed
deriving DecidableEq

/-- Modelled from the spec: the backend enforcement protocol for a
metered export (`app/services/usage.py` and the export route, not
among the available sources). The relevant quota is evaluated before
the action: a `limit` status rejects the request with no event
recorded; otherwise the action runs and an event is appended only when
it succeeds. -/
def runMeteredExport (quota : PlanQuota) (store : List UsageEvent) (now : Nat)
    (outcome : Except Unit ℚ) : List UsageEvent × Except MeterOutcome ℚ :=
  if quota.status = QuotaStatus.limit then
    (store, Except.error MeterOutcome.quotaExceeded)
  else
    match outcome with
    | Except.ok rows => (store ++ [⟨quota.event_type, now⟩], Except.ok rows)
    | Except.error _ => (store, Except.error MeterOutcome.actionFailed)

/-- From `frontend/src/components/ExportButton.tsx`: the export quota
is the snapshot's quota whose event type is `properties.export`. -/
def findExportQuota (snapshot : Option PlanSnapshot) : Option PlanQuota :=
  snapshot.bind (fun plan => plan.quotas.find? (fun q => q.event_type == "properties.export"))

/-- From `frontend/src/components/ExportButton.tsx`:
`(exportQuota?.remaining ?? 1) <= 0` — the condition disabling the
export button. -/
def exportLimitReached (snapshot : Option PlanSnapshot) : Bool :=
  decide ((((findExportQuota snapshot).map PlanQuota.remaining).getD 1) ≤ 0)

/-- A raw parcel record, from the spec's data model: upstream fields
that feed the scoring engine, plus the location fields the grouper can
group by. Every scoring input may be missing. -/
structure RawParcelRecord where
  property_id : String
  city : Option String
  state : Option String
  postal_code : Option String
  estimated_equity : Option ℚ
  assessed_value : Option ℚ
  market_value : Option ℚ
  transfer_age_days : Option ℚ
deriving DecidableEq

/-- The three normalized sub-scores, from
`frontend/src/types/property.ts` (`ScoreBreakdown`). -/
structure ScoreBreakdown where
  equity : ℚ
  value_gap : ℚ
  recency : ℚ
deriving DecidableEq

/-- A scored property: the raw record plus its breakdown and composite
score, from the spec's data model. -/
structure ScoredProperty where
  record : RawParcelRecord
  breakdown : ScoreBreakdown
  score : ℚ
deriving DecidableEq

/-- Clamp a rational into `[lo, hi]`. -/
def clampQ (lo hi x : ℚ) : ℚ :=
  max lo (min hi x)

/-- Smallest element of a list of rationals (`0` for the empty list,
which never reaches the scaling path). -/
def listMin : List ℚ → ℚ
  | [] => 0
  | x :: xs => xs.foldl min x

/-- Largest element of a list of rationals (`0` for the empty list). -/
def listMax : List ℚ → ℚ
  | [] => 0
  | x :: xs => xs.foldl max x

/-- Median of a list of rationals: middle of the sorted list, mean of
the two middles for even length, `0` for the empty list. -/
def median (l : List ℚ) : ℚ :=
  let s := List.insertionSort (fun a b : ℚ => a ≤ b) l
  if s = [] then 0
  else if s.length % 2 = 1 then s.getD (s.length / 2) 0
  else (s.getD (s.length / 2 - 1) 0 + s.getD (s.length / 2) 0) / 2

/-- Substitute the median of the present values for every missing
value (the spec's missing-data guardrail). -/
def fillWithMedian (vals : List (Option ℚ)) : List ℚ :=
  let m := median (vals.filterMap id)
  vals.map (fun v => v.getD m)

/-- Min-max scale a batch of values into `[0,1]`; a zero-variance
batch (all equal, or a single record) maps to the neutral `1/2`
instead of dividing by zero. -/
def minmaxScaleList (l : List ℚ) : List ℚ :=
  let lo := listMin l
  let hi := listMax l
  if hi = lo then l.map (fun _ => (1 / 2 : ℚ))
  else l.map (fun x => (x - lo) / (hi - lo))

/-- Modelled from the spec: the Scoring Engine's equity factor
(`app/services/properties.py`, not among the available sources) —
missing equity takes the batch median, then the batch is min-max
scaled with the zero-variance guardrail. -/
def equityFactors (batch : List RawParcelRecord) : List ℚ :=
  minmaxScaleList (fillWithMedian (batch.map RawParcelRecord.estimated_equity))

/-- Modelled from the spec: a record's raw value gap —
`market_value − assessed_value` when both are present, floored at
zero; missing when either value is missing. -/
def rawValueGap (r : RawParcelRecord) : Option ℚ :=
  match r.market_value, r.assessed_value with
  | some m, some a => some (max 0 (m - a))
  | _, _ => none

/-- Modelled from the spec: the Scoring Engine's value-gap factor —
median substitution for missing gaps, then min-max scaling with the
zero-variance guardrail. -/
def valueGapFactors (batch : List RawParcelRecord) : List ℚ :=
  minmaxScaleList (fillWithMedian (batch.map rawValueGap))

/-- The recency horizon in days (ten years), the spec's example
configuration. -/
def recencyHorizon : ℚ := 3650

/-- Two years in days: ages at or below this score `1`. -/
def recencyFresh : ℚ := 730

/-- Modelled from the spec: a monotonically decreasing decay from age
in days to `[0,1]` — ages up to two years map to `1`, ages at or past
the horizon map to `0`, linear in between (the source's exact curve is
the spec's open question; this is one monotone choice). -/
def recencyCurve (age : ℚ) : ℚ :=
  clampQ 0 1 ((recencyHorizon - age) / (recencyHorizon - recencyFresh))

/-- Modelled from the spec: the Scoring Engine's recency factor —
missing transfer dates take the batch median age, then ages map
through the decay curve. -/
def recencyFactors (batch : List RawParcelRecord) : List ℚ :=
  (fillWithMedian (batch.map RawParcelRecord.transfer_age_days)).map recencyCurve

/-- Composite score: `100 × (0.45·equity + 0.35·value_gap +
0.20·recency)`, clamped to `[0,100]`. -/
def compositeScore (equity valueGap recency : ℚ) : ℚ :=
  clampQ 0 100 (100 * ((45 / 100) * equity + (35 / 100) * valueGap + (20 / 100) * recency))

/-- Modelled from the spec: the Scoring Engine — produce a
`ScoredProperty` for each record of the batch by pairing it with its
three batch-relative factors and the clamped weighted composite. -/
def scoreBatch (batch : List RawParcelRecord) : List ScoredProperty :=
  (batch.zip ((equityFactors batch).zip ((valueGapFactors batch).zip (recencyFactors batch)))).map
    (fun p =>
      { record := p.1
        breakdown := { equity := p.2.1, value_gap := p.2.2.1, recency := p.2.2.2 }
        score := compositeScore p.2.1 p.2.2.1 p.2.2.2 })

/-- A lead pack, from `frontend/src/types/property.ts` (`LeadPack`):
a label, the full group count, and the ranked top properties. -/
structure LeadPack where
  label : String
  total : Nat
  top_properties : List ScoredProperty
deriving DecidableEq

/-- Sort key for records inside a pack: descending composite score,
ties broken by higher equity factor, then by record identifier. -/
def leadKey (p : ScoredProperty) : ℚ ×ₗ (ℚ ×ₗ String) :=
  toLex (-p.score, toLex (-p.breakdown.equity, p.record.property_id))

/-- Ranking order inside a pack, via `leadKey`. -/
def leadLE (a b : ScoredProperty) : Prop :=
  leadKey a ≤ leadKey b

instance : DecidableRel leadLE :=
  fun a b => inferInstanceAs (Decidable (leadKey a ≤ leadKey b))

instance : IsTotal ScoredProperty leadLE :=
  ⟨fun a b => le_total (leadKey a) (leadKey b)⟩

instance : IsTrans ScoredProperty leadLE :=
  ⟨fun _ _ _ h₁ h₂ => le_trans h₁ h₂⟩

/-- Sort key for the packs themselves: descending total, ties broken
by label. -/
def packKey (p : LeadPack) : Int ×ₗ String :=
  toLex (-(p.total : Int), p.label)

/-- Ordering of packs in the response, via `packKey`. -/
def packLE (a b : LeadPack) : Prop :=
  packKey a ≤ packKey b

instance : DecidableRel packLE :=
  fun a b => inferInstanceAs (Decidable (packKey a ≤ packKey b))

instance : IsTotal LeadPack packLE :=
  ⟨fun a b => le_total (packKey a) (packKey b)⟩

instance : IsTrans LeadPack packLE :=
  ⟨fun _ _ _ h₁ h₂ => le_trans h₁ h₂⟩

/-- Rejection for an unsupported grouping field, from the spec's error
taxonomy (`InvalidGroupingField`). -/
inductive GroupError where
  | invalidGroupingField
deriving DecidableEq

/-- The supported grouping fields and their projections; a missing or
empty value falls into the empty-string label. -/
def groupKeyFn : String → Option (ScoredProperty → String)
  | "postal_code" => some (fun p => (p.record.postal_code).getD "")
  | "city" => some (fun p => (p.record.city).getD "")
  | "state" => some (fun p => (p.record.state).getD "")
  | _ => none

/-- Modelled from the spec: the Lead Pack Grouper's core on a resolved
grouping key — partition by the key's value, rank each group by
`leadLE` and keep the top `packSize` records, report the full group
count as `total`, and order packs by descending total with labels
breaking ties. -/
def groupLeadsWithKey (props : List ScoredProperty) (key : ScoredProperty → String)
    (packSize : Nat) : List LeadPack :=
  let labels := (props.map key).dedup
  let packs := labels.map (fun lb =>
    let members := props.filter (fun p => key p = lb)
    { label := lb
      total := members.length
      top_properties := (List.insertionSort leadLE members).take packSize })
  List.insertionSort packLE packs

/-- Modelled from the spec: the Lead Pack Grouper
(`app/services/properties.py`, not among the available sources) —
an unsupported grouping field is rejected outright, a supported one
groups via `groupLeadsWithKey`. -/
def groupLeads (props : List ScoredProperty) (groupByField : String) (packSize : Nat) :
    Except GroupError (List LeadPack) :=
  match groupKeyFn groupByField with
  | none => Except.error GroupError.invalidGroupingField
  | some key => Except.ok (groupLeadsWithKey props key packSize)

/-- A cache entry, from the spec's data model: the scored batch and
its creation timestamp. -/
structure CacheEntry where
  properties : List ScoredProperty
  createdAt : Nat
deriving DecidableEq

/-- Typed upstream failures, from the spec's external interface. -/
inductive FetchError where
  | timeout
  | rateLimited
  | malformed
deriving DecidableEq

/-- The cache, one entry per geographic scope. -/
abbrev CacheMap := List (String × CacheEntry)

/-- An entry is expired once its age reaches the TTL. -/
def entryExpired (e : CacheEntry) (now ttl : Nat) : Bool :=
  e.createdAt + ttl ≤ now

/-- Modelled from the spec: the Property Cache's `getOrRefresh`
(`app/services/properties.py`, not among the available sources), with
the upstream fetch's result passed in as data. A fresh entry is
returned unchanged; an expired entry or a forced refresh scores the
fetched batch and replaces the entry atomically; a failed fetch leaves
the cache untouched and serves the stale entry, surfacing the error
only when no entry exists for the scope. -/
def getOrRefresh (cache : CacheMap) (scope : String) (forceRefresh : Bool) (now ttl : Nat)
    (fetched : Except FetchError (List RawParcelRecord)) :
    CacheMap × Except FetchError (List ScoredProperty) :=
  match lookupList scope cache with
  | some entry =>
      if forceRefresh = false ∧ entryExpired entry now ttl = false then
        (cache, Except.ok entry.properties)
      else
        match fetched with
        | Except.ok raws =>
            let fresh : CacheEntry := { properties := scoreBatch raws, createdAt := now }
            (setList cache scope fresh, Except.ok fresh.properties)
        | Except.error _ => (cache, Except.ok entry.properties)
  | none =>
      match fetched with
      | Except.ok raws =>
          let fresh : CacheEntry := { properties := scoreBatch raws, createdAt := now }
          (setList cache scope fresh, Except.ok fresh.properties)
      | Except.error err => (cache, Except.error err)

/-! ### Association-list lemmas -/

theorem lookup_setList_self {α : Type} (l : List (String × α)) (k : String) (v : α) :
    lookupList k (setList l k v) = some v := by
  induction l with
  | nil => simp [setList, lookupList]
  | cons hd tl ih =>
      obtain ⟨k', v'⟩ := hd
      by_cases h : k' = k
      · simp [setList, h, lookupList]
      · simp [setList, h, lookupList, ih]

theorem lookup_setList_other {α : Type} (l : List (String × α)) (j k : String) (v : α)
    (h : j ≠ k) : lookupList j (setList l k v) = lookupList j l := by
  induction l with
  | nil => simp [setList, lookupList, Ne.symm h]
  | cons hd tl ih =>
      obtain ⟨k', v'⟩ := hd
      by_cases hk : k' = k
      · subst hk
        simp [setList, lookupList, Ne.symm h]
      · simp only [setList, if_neg hk, lookupList]
        by_cases hj : k' = j
        · simp [hj]
        · simp [hj, ih]

theorem setList_of_not_mem_keys {α : Type} (l : List (String × α)) (k : String) (v : α)
    (h : k ∉ keysOf l) : setList l k v = l ++ [(k, v)] := by
  induction l with
  | nil => simp [setList]
  | cons hd tl ih =>
      obtain ⟨k', v'⟩ := hd
      simp only [keysOf, List.map_cons, List.mem_cons, not_or] at h
      have hne : k' ≠ k := Ne.symm h.1
      simp [setList, hne, ih (by simpa [keysOf] using h.2)]

theorem mem_of_lookup_eq_some {α : Type} {l : List (String × α)} {k : String} {v : α}
    (h : lookupList k l = some v) : (k, v) ∈ l := by
  induction l with
  | nil => simp [lookupList] at h
  | cons hd tl ih =>
      obtain ⟨k', v'⟩ := hd
      by_cases hk : k' = k
      · subst hk
        rw [lookupList, if_pos rfl] at h
        obtain rfl : v' = v := Option.some.inj h
        exact List.mem_cons_self _ _
      · rw [lookupList, if_neg hk] at h
        exact List.mem_cons_of_mem _ (ih h)

theorem lookup_eq_some_of_mem {α : Type} {l : List (String × α)} {k : String} {v : α}
    (hnd : (keysOf l).Nodup) (h : (k, v) ∈ l) : lookupList k l = some v := by
  induction l with
  | nil => simp at h
  | cons hd tl ih =>
      obtain ⟨k', v'⟩ := hd
      simp only [keysOf, List.map_cons, List.nodup_cons] at hnd
      rcases List.mem_cons.mp h with heq | hmem
      · obtain ⟨rfl, rfl⟩ := Prod.mk.injEq k v k' v' ▸ Prod.ext_iff.mp heq
        simp [lookupList]
      · have hne : k' ≠ k := by
          intro hk
          subst hk
          exact hnd.1 (List.mem_map.mpr ⟨(k', v), hmem, rfl⟩)
        rw [lookupList, if_neg hne]
        exact ih (by simpa [keysOf] using hnd.2) hmem

theorem lookup_eq_some_iff_mem {α : Type} {l : List (String × α)} {k : String} {v : α}
    (hnd : (keysOf l).Nodup) : lookupList k l = some v ↔ (k, v) ∈ l :=
  ⟨mem_of_lookup_eq_some, lookup_eq_some_of_mem hnd⟩

/-! ### C6 — stale entry preserved on failed refresh -/

/-- C6: when a cache entry exists for the scope and the upstream fetch
fails, `getOrRefresh` leaves the cache unchanged and returns the
existing (possibly expired) entry's properties rather than an error,
for every force flag, clock value and TTL. -/
theorem getOrRefresh_stale_on_failure (cache : CacheMap) (scope : String)
    (forceRefresh : Bool) (now ttl : Nat) (err : FetchError) (entry : CacheEntry)
    (h : lookupList scope cache = some entry) :
    getOrRefresh cache scope forceRefresh now ttl (Except.error err) =
      (cache, Except.ok entry.properties) := by
  unfold getOrRefresh
  rw [h]
  by_cases hfresh : forceRefresh = false ∧ entryExpired entry now ttl = false
  · simp [hfresh]
  · simp [hfresh]

/-- Witness for C6 at a concrete one-entry cache, expired entry and a
timed-out fetch. -/
theorem getOrRefresh_stale_on_failure_witness :
    getOrRefresh [("austin-tx", ⟨[], 0⟩)] "austin-tx" false 1000 300
      (Except.error FetchError.timeout) = ([("austin-tx", ⟨[], 0⟩)], Except.ok []) :=
  getOrRefresh_stale_on_failure [("austin-tx", ⟨[], 0⟩)] "austin-tx" false 1000 300
    FetchError.timeout ⟨[], 0⟩ (by decide)

/-! ### C2 — quota arithmetic -/

/-- C2: a quota derived from limit `L` and used count `U` satisfies
`remaining = max(0, L − U)`, and its status is `limit` exactly when
`U ≥ L`, `warning` exactly when `0.9·L ≤ U < L`, and `ok` exactly
otherwise. -/
theorem mkPlanQuota_spec (eventType : String) (L U windowDays : Nat) :
    (mkPlanQuota eventType L U windowDays).remaining = max 0 ((L : Int) - (U : Int))
    ∧ ((mkPlanQuota eventType L U windowDays).status = QuotaStatus.limit ↔ U ≥ L)
    ∧ ((mkPlanQuota eventType L U windowDays).status = QuotaStatus.warning ↔
        ((9 / 10 : ℚ) * (L : ℚ) ≤ (U : ℚ) ∧ U < L))
    ∧ ((mkPlanQuota eventType L U windowDays).status = QuotaStatus.ok ↔
        (U : ℚ) < (9 / 10 : ℚ) * (L : ℚ)) := by
  have hstat : (mkPlanQuota eventType L U windowDays).status = quotaStatusOf L U := rfl
  have hLq : (0 : ℚ) ≤ (L : ℚ) := by positivity
  refine ⟨rfl, ?_, ?_, ?_⟩ <;> rw [hstat] <;> unfold quotaStatusOf <;> split_ifs with h₁ h₂
  · simpa using h₁
  · simp [h₁]
  · simp [h₁]
  · have hUL : ¬ (U < L) := not_lt.mpr h₁
    simp [hUL]
  · have hUL : U < L := not_le.mp h₁
    simp [h₂, hUL]
  · simp [h₂]
  · have hcast : (L : ℚ) ≤ (U : ℚ) := by exact_mod_cast h₁
    have h9 : (9 / 10 : ℚ) * (L : ℚ) ≤ (L : ℚ) := by nlinarith
    simp [not_lt.mpr (le_trans h9 hcast)]
  · simp [not_lt.mpr h₂]
  · simp [not_le.mp h₂]

/-! ### C3 — quota enforcement before export, and the disabled button -/

/-- C3: a metered export whose quota status is `limit` is rejected
before the action runs and records no usage event; in the UI the
export action is disabled exactly when the export quota's remaining
count is 0 (for server-derived snapshots, whose remaining counts are
nonnegative), and enabled when no plan snapshot is available. -/
theorem export_quota_enforcement :
    (∀ (quota : PlanQuota) (store : List UsageEvent) (now : Nat) (outcome : Except Unit ℚ),
      quota.status = QuotaStatus.limit →
        runMeteredExport quota store now outcome =
          (store, Except.error MeterOutcome.quotaExceeded))
    ∧ (∀ (snapshot : Option PlanSnapshot) (q : PlanQuota),
        findExportQuota snapshot = some q → 0 ≤ q.remaining →
          (exportLimitReached snapshot = true ↔ q.remaining = 0))
    ∧ exportLimitReached none = false := by
  refine ⟨?_, ?_, ?_⟩
  · intro quota store now outcome hlimit
    simp [runMeteredExport, hlimit]
  · intro snapshot q hfind hnonneg
    simp only [exportLimitReached, hfind, Option.map_some', Option.getD_some,
      decide_eq_true_eq]
    omega
  · simp [exportLimitReached, findExportQuota]

/-- Witness for C3: a limited quota rejects a would-be successful
export without touching the event store, a snapshot with zero
remaining exports disables the button, and a missing snapshot leaves
it enabled. -/
theorem export_quota_enforcement_witness :
    (runMeteredExport (mkPlanQuota "properties.export" 5 5 30) [] 17 (Except.ok 3) =
      ([], Except.error MeterOutcome.quotaExceeded))
    ∧ exportLimitReached
        (some { plan_name := "starter"
                quotas := [mkPlanQuota "properties.export" 5 5 30]
                alerts := [] }) = true
    ∧ exportLimitReached none = false := by
  refine ⟨?_, ?_, export_quota_enforcement.2.2⟩
  · exact export_quota_enforcement.1 (mkPlanQuota "properties.export" 5 5 30) [] 17
      (Except.ok 3) (by decide)
  · exact (export_quota_enforcement.2.1
      (some { plan_name := "starter"
              quotas := [mkPlanQuota "properties.export" 5 5 30]
              alerts := [] })
      (mkPlanQuota "properties.export" 5 5 30) (by decide) (by decide)).mpr (by decide)

/-! ### C1 — export resolves with the reported row count -/

/-- C1: for every filter input, `downloadPropertyExport` resolves with
the numeric count carried by the `x-property-count` response header,
and with `0` when the header is absent or does not convert to a
number. -/
theorem downloadPropertyExport_count (filters : Obj) (headers : List (String × String)) :
    (lookupList "x-property-count" headers = none →
      (downloadPropertyExport filters headers).2 = 0)
    ∧ (∀ h, lookupList "x-property-count" headers = some h → jsNumber h = none →
        (downloadPropertyExport filters headers).2 = 0)
    ∧ (∀ h q, lookupList "x-property-count" headers = some h → jsNumber h = some q →
        (downloadPropertyExport filters headers).2 = q) := by
  refine ⟨?_, ?_, ?_⟩
  · intro hnone
    simp [downloadPropertyExport, exportCountOfHeaders, hnone]
  · intro h hsome hnan
    by_cases hempty : h = ""
    · simp [downloadPropertyExport, exportCountOfHeaders, hsome, hempty]
    · simp [downloadPropertyExport, exportCountOfHeaders, hsome, hempty, hnan]
  · intro h q hsome hq
    by_cases hempty : h = ""
    · subst hempty
      have : q = 0 := by
        have h0 : jsNumber "" = some 0 := by with_unfolding_all rfl
        rw [h0] at hq
        exact (Option.some.inj hq).symm
      simp [downloadPropertyExport, exportCountOfHeaders, hsome, this]
    · by_cases hz : q = 0
      · simp [downloadPropertyExport, exportCountOfHeaders, hsome, hempty, hq, hz]
      · simp [downloadPropertyExport, exportCountOfHeaders, hsome, hempty, hq, hz]

/-- Witness for C1 at concrete headers: a numeric header resolves with
its value, a non-numeric header and a missing header resolve with 0. -/
theorem downloadPropertyExport_count_witness :
    (downloadPropertyExport [] [("x-property-count", "42")]).2 = 42
    ∧ (downloadPropertyExport [] [("x-property-count", "oops")]).2 = 0
    ∧ (downloadPropertyExport [] [("content-type", "text/csv")]).2 = 0 :=
  ⟨(downloadPropertyExport_count [] [("x-property-count", "42")]).2.2 "42" 42
      (by decide) (by with_unfolding_all rfl),
   (downloadPropertyExport_count [] [("x-property-count", "oops")]).2.1 "oops"
      (by decide) (by with_unfolding_all rfl),
   (downloadPropertyExport_count [] [("content-type", "text/csv")]).1 (by decide)⟩

/-! ### C7 — the filter type's field enumeration -/

/-- C7 counterexample: the `PropertyFilters` interface does not
enumerate exactly the claimed filters — it has no max-equity field at
all, and it declares fields (for example the score threshold) outside
the claimed enumeration; in particular its field list differs from the
claimed one. -/
theorem propertyFiltersFields_ne_claimed :
    "max_equity" ∉ propertyFiltersFields
    ∧ "min_score" ∈ propertyFiltersFields
    ∧ "min_score" ∉ specClaimedFilterFields
    ∧ ¬ (∀ f, f ∈ propertyFiltersFields ↔ f ∈ specClaimedFilterFields) := by
  refine ⟨by decide, by decide, by decide, ?_⟩
  intro hall
  exact absurd ((hall "min_score").mp (by decide)) (by decide)

/-- C7 amended: the filter set is an explicit structured type whose
fields enumerate exactly city, state, postal_code, min_equity,
min_score, min_value_gap, min_market_value, max_market_value,
min_assessed_value, max_assessed_value, owner_occupancy,
center_latitude, center_longitude, radius_miles, search, and the
pagination fields limit and offset — there is no max-equity filter —
and the store's default filter object binds exactly these fields. -/
theorem propertyFiltersFields_enumeration :
    propertyFiltersFields =
      ["city", "state", "postal_code", "min_equity", "min_score", "min_value_gap",
       "min_market_value", "max_market_value", "min_assessed_value", "max_assessed_value",
       "owner_occupancy", "center_latitude", "center_longitude", "radius_miles",
       "search", "limit", "offset"]
    ∧ propertyFiltersFields.Nodup
    ∧ List.Perm (keysOf defaultFilters) propertyFiltersFields := by
  refine ⟨rfl, by decide, by decide⟩

/-! ### C8 — frame properties of the filter store actions -/

/-- C8: for a key other than `offset`, `setFilter` rewrites only that
key (to the sanitized value) and `offset` (to 0), leaving every other
filter field and the presets unchanged; `setOffset` rewrites only
`offset`, leaving every other filter field and the presets
unchanged. -/
theorem setFilter_setOffset_frame (st : FilterState) (k : String) (v : JsValue)
    (j : String) (n : ℚ) (hk : k ≠ "offset") :
    lookupList k (setFilter st k v).filters = some (sanitizeFilterValue v)
    ∧ lookupList "offset" (setFilter st k v).filters = some (JsValue.num 0)
    ∧ (j ≠ k → j ≠ "offset" →
        lookupList j (setFilter st k v).filters = lookupList j st.filters)
    ∧ (setFilter st k v).presets = st.presets
    ∧ lookupList "offset" (setOffset st n).filters = some (JsValue.num n)
    ∧ (j ≠ "offset" → lookupList j (setOffset st n).filters = lookupList j st.filters)
    ∧ (setOffset st n).presets = st.presets := by
  refine ⟨?_, ?_, ?_, rfl, ?_, ?_, rfl⟩
  · show lookupList k (setList (setList st.filters k (sanitizeFilterValue v)) "offset" _) =
      some (sanitizeFilterValue v)
    rw [lookup_setList_other _ _ _ _ hk, lookup_setList_self]
  · show lookupList "offset" (setList (setList st.filters k (sanitizeFilterValue v)) "offset" _) =
      some (JsValue.num 0)
    rw [lookup_setList_self]
    simp [hk]
  · intro hjk hjo
    show lookupList j (setList (setList st.filters k (sanitizeFilterValue v)) "offset" _) =
      lookupList j st.filters
    rw [lookup_setList_other _ _ _ _ hjo, lookup_setList_other _ _ _ _ hjk]
  · exact lookup_setList_self st.filters "offset" (JsValue.num n)
  · intro hjo
    exact lookup_setList_other st.filters j "offset" (JsValue.num n) hjo

/-- Witness for C8 at the default filter object: setting `city`
changes `city` and resets `offset`, leaves `search` alone and keeps
the presets; `setOffset` moves only `offset`. -/
theorem setFilter_setOffset_frame_witness :
    lookupList "city" (setFilter ⟨defaultFilters, []⟩ "city" (JsValue.str " Austin ")).filters =
      some (JsValue.str "Austin")
    ∧ lookupList "offset"
        (setFilter ⟨defaultFilters, []⟩ "city" (JsValue.str " Austin ")).filters =
      some (JsValue.num 0)
    ∧ lookupList "search"
        (setFilter ⟨defaultFilters, []⟩ "city" (JsValue.str " Austin ")).filters =
      lookupList "search" defaultFilters
    ∧ (setFilter ⟨defaultFilters, []⟩ "city" (JsValue.str " Austin ")).presets = []
    ∧ lookupList "offset" (setOffset ⟨defaultFilters, []⟩ 50).filters = some (JsValue.num 50)
    ∧ lookupList "min_equity" (setOffset ⟨defaultFilters, []⟩ 50).filters =
      lookupList "min_equity" defaultFilters := by
  have h := setFilter_setOffset_frame ⟨defaultFilters, []⟩ "city" (JsValue.str " Austin ")
    "search" 50 (by decide)
  have h' := setFilter_setOffset_frame ⟨defaultFilters, []⟩ "city" (JsValue.str " Austin ")
    "min_equity" 50 (by decide)
  refine ⟨?_, h.2.1, h.2.2.1 (by decide) (by decide), h.2.2.2.1, h.2.2.2.2.1,
    h'.2.2.2.2.2.1 (by decide)⟩
  have hsan : sanitizeFilterValue (JsValue.str " Austin ") = JsValue.str "Austin" := by
    with_unfolding_all rfl
  exact hsan ▸ h.1

/-! ### C9 — sanitizeFilters characterization -/

theorem lookup_none_of_not_mem_keys {α : Type} {l : List (String × α)} {k : String}
    (h : k ∉ keysOf l) : lookupList k l = none := by
  induction l with
  | nil => rfl
  | cons hd tl ih =>
      obtain ⟨k', v'⟩ := hd
      simp only [keysOf, List.map_cons, List.mem_cons, not_or] at h
      rw [lookupList, if_neg (fun hk => h.1 hk.symm)]
      exact ih (by simpa [keysOf] using h.2)

theorem sanitizeStep_of_dropped (params : Obj) (kv : String × JsValue)
    (h : retainedValue kv.2 = none) : sanitizeStep params kv = params := by
  obtain ⟨k, v⟩ := kv
  cases v with
  | str s =>
      by_cases hts : (jsTrim s).length = 0
      · simp [sanitizeStep, hts]
      · simp [retainedValue, hts] at h
  | num q => simp [retainedValue] at h
  | nan => simp [retainedValue] at h
  | null => rfl
  | undef => rfl

theorem sanitizeStep_of_retained (params : Obj) (kv : String × JsValue) (w : JsValue)
    (h : retainedValue kv.2 = some w) : sanitizeStep params kv = setList params kv.1 w := by
  obtain ⟨k, v⟩ := kv
  cases v with
  | str s =>
      by_cases hts : (jsTrim s).length = 0
      · simp [retainedValue, hts] at h
      · simp only [retainedValue, if_neg hts, Option.some.injEq] at h
        simp [sanitizeStep, hts, h]
  | num q =>
      simp only [retainedValue, Option.some.injEq] at h
      simp [sanitizeStep, h]
  | nan =>
      simp only [retainedValue, Option.some.injEq] at h
      simp [sanitizeStep, h]
  | null => simp [retainedValue] at h
  | undef => simp [retainedValue] at h

/-- The entry transformation `sanitizeFilters` applies: keep the key,
retain the value per `retainedValue`. -/
def retainedEntry (p : String × JsValue) : Option (String × JsValue) :=
  (retainedValue p.2).map (fun w => (p.1, w))

theorem foldl_sanitizeStep (l : Obj) :
    ∀ acc : Obj, (∀ k ∈ keysOf l, k ∉ keysOf acc) → (keysOf l).Nodup →
      l.foldl sanitizeStep acc = acc ++ l.filterMap retainedEntry := by
  induction l with
  | nil => intro acc _ _; simp
  | cons hd tl ih =>
      intro acc hdisj hnd
      obtain ⟨k, v⟩ := hd
      simp only [keysOf, List.map_cons, List.nodup_cons] at hnd
      have hk_acc : k ∉ keysOf acc := hdisj k (by simp [keysOf])
      have hdisj_tl : ∀ k' ∈ keysOf tl, k' ∉ keysOf acc :=
        fun k' hk' => hdisj k' (by simp [keysOf] at hk' ⊢; exact Or.inr hk')
      rw [List.foldl_cons]
      cases hr : retainedValue v with
      | none =>
          have hent : retainedEntry (k, v) = none := by simp [retainedEntry, hr]
          rw [sanitizeStep_of_dropped acc (k, v) hr,
            List.filterMap_cons_none hent,
            ih acc hdisj_tl (by simpa [keysOf] using hnd.2)]
      | some w =>
          have hent : retainedEntry (k, v) = some (k, w) := by simp [retainedEntry, hr]
          have hdisj' : ∀ k' ∈ keysOf tl, k' ∉ keysOf (acc ++ [(k, w)]) := by
            intro k' hk'
            simp only [keysOf, List.map_append, List.map_cons, List.map_nil,
              List.mem_append, List.mem_singleton, not_or]
            refine ⟨hdisj_tl k' hk', ?_⟩
            intro hkk
            subst hkk
            exact hnd.1 (by simpa [keysOf] using hk')
          rw [sanitizeStep_of_retained acc (k, v) w hr,
            setList_of_not_mem_keys acc k w hk_acc,
            List.filterMap_cons_some hent,
            ih (acc ++ [(k, w)]) hdisj' (by simpa [keysOf] using hnd.2),
            List.append_assoc]
          rfl

theorem keys_filterMap_retained_subset (l : Obj) :
    keysOf (l.filterMap retainedEntry) ⊆ keysOf l := by
  induction l with
  | nil => simp [keysOf]
  | cons hd tl ih =>
      obtain ⟨k, v⟩ := hd
      cases hr : retainedValue v with
      | none =>
          have hent : retainedEntry (k, v) = none := by simp [retainedEntry, hr]
          rw [List.filterMap_cons_none hent]
          intro x hx
          simp only [keysOf, List.map_cons, List.mem_cons]
          exact Or.inr (ih hx)
      | some w =>
          have hent : retainedEntry (k, v) = some (k, w) := by simp [retainedEntry, hr]
          rw [List.filterMap_cons_some hent]
          intro x hx
          simp only [keysOf, List.map_cons, List.mem_cons] at hx ⊢
          rcases hx with hx | hx
          · exact Or.inl hx
          · exact Or.inr (ih hx)

theorem lookup_filterMap_retained {l : Obj} (hnd : (keysOf l).Nodup) (k : String) :
    lookupList k (l.filterMap retainedEntry) = (lookupList k l).bind retainedValue := by
  induction l with
  | nil => rfl
  | cons hd tl ih =>
      obtain ⟨k', v'⟩ := hd
      simp only [keysOf, List.map_cons, List.nodup_cons] at hnd
      have ihtl := ih (by simpa [keysOf] using hnd.2)
      by_cases hk : k' = k
      · subst hk
        rw [lookupList, if_pos rfl, Option.some_bind]
        cases hr : retainedValue v' with
        | none =>
            have hent : retainedEntry (k', v') = none := by simp [retainedEntry, hr]
            rw [List.filterMap_cons_none hent]
            have hnotin : k' ∉ keysOf (tl.filterMap retainedEntry) :=
              fun hin => hnd.1 ((keys_filterMap_retained_subset tl) hin)
            exact lookup_none_of_not_mem_keys hnotin
        | some w =>
            have hent : retainedEntry (k', v') = some (k', w) := by simp [retainedEntry, hr]
            rw [List.filterMap_cons_some hent, lookupList, if_pos rfl]
      · rw [lookupList, if_neg hk]
        cases hr : retainedValue v' with
        | none =>
            have hent : retainedEntry (k', v') = none := by simp [retainedEntry, hr]
            rw [List.filterMap_cons_none hent]
            exact ihtl
        | some w =>
            have hent : retainedEntry (k', v') = some (k', w) := by simp [retainedEntry, hr]
            rw [List.filterMap_cons_some hent, lookupList, if_neg hk]
            exact ihtl

theorem sanitizeFilters_eq_filterMap (l : Obj) (hnd : (keysOf l).Nodup) :
    sanitizeFilters l = l.filterMap retainedEntry := by
  have h := foldl_sanitizeStep l [] (by simp [keysOf]) hnd
  simpa [sanitizeFilters] using h

/-- C9: over a filter object with distinct keys, the sanitized query
parameters keep an entry exactly when its value is neither
`undefined`, `null`, nor a string that trims to empty; kept strings
are trimmed, kept numbers pass through unchanged, and no `null`,
`undefined` or empty-string value ever appears in the result. -/
theorem sanitizeFilters_spec (l : Obj) (hnd : (keysOf l).Nodup) :
    (∀ k, lookupList k (sanitizeFilters l) = (lookupList k l).bind retainedValue)
    ∧ (∀ k s, lookupList k l = some (JsValue.str s) → (jsTrim s).length ≠ 0 →
        lookupList k (sanitizeFilters l) = some (JsValue.str (jsTrim s)))
    ∧ (∀ k q, lookupList k l = some (JsValue.num q) →
        lookupList k (sanitizeFilters l) = some (JsValue.num q))
    ∧ (∀ k, (lookupList k (sanitizeFilters l)).isSome = true ↔
        ∃ v, lookupList k l = some v ∧ v ≠ JsValue.undef ∧ v ≠ JsValue.null ∧
          ∀ s, v = JsValue.str s → (jsTrim s).length ≠ 0)
    ∧ (∀ p ∈ sanitizeFilters l,
        p.2 ≠ JsValue.null ∧ p.2 ≠ JsValue.undef ∧ p.2 ≠ JsValue.str "") := by
  have hmain : ∀ k, lookupList k (sanitizeFilters l) = (lookupList k l).bind retainedValue := by
    intro k
    rw [sanitizeFilters_eq_filterMap l hnd]
    exact lookup_filterMap_retained hnd k
  refine ⟨hmain, ?_, ?_, ?_, ?_⟩
  · intro k s hs hne
    rw [hmain k, hs, Option.some_bind]
    simp only [retainedValue, if_neg hne]
  · intro k q hq
    rw [hmain k, hq, Option.some_bind]
    rfl
  · intro k
    rw [hmain k]
    cases hl : lookupList k l with
    | none =>
        simp
    | some v =>
        rw [Option.some_bind]
        cases v with
        | str s =>
            by_cases hts : (jsTrim s).length = 0
            · simp only [retainedValue, if_pos hts, Option.isSome_none,
                Bool.false_eq_true, false_iff, not_exists]
              intro w
              rintro ⟨hw, _, _, hstr⟩
              obtain rfl := Option.some.inj hw
              exact (hstr s rfl) hts
            · simp only [retainedValue, if_neg hts, Option.isSome_some, true_iff]
              refine ⟨JsValue.str s, rfl, by simp, by simp, ?_⟩
              intro s' hs'
              obtain rfl := JsValue.str.inj hs'
              exact hts
        | num q =>
            simp only [retainedValue, Option.isSome_some, true_iff]
            exact ⟨JsValue.num q, rfl, by simp, by simp, by simp⟩
        | nan =>
            simp only [retainedValue, Option.isSome_some, true_iff]
            exact ⟨JsValue.nan, rfl, by simp, by simp, by simp⟩
        | null =>
            simp only [retainedValue, Option.isSome_none, Bool.false_eq_true, false_iff,
              not_exists]
            intro w
            rintro ⟨hw, _, hnull, _⟩
            obtain rfl := Option.some.inj hw
            exact hnull rfl
        | undef =>
            simp only [retainedValue, Option.isSome_none, Bool.false_eq_true, false_iff,
              not_exists]
            intro w
            rintro ⟨hw, hundef, _, _⟩
            obtain rfl := Option.some.inj hw
            exact hundef rfl
  · intro p hp
    rw [sanitizeFilters_eq_filterMap l hnd] at hp
    obtain ⟨a, _, ha⟩ := List.mem_filterMap.mp hp
    obtain ⟨k, v⟩ := a
    cases v with
    | str s =>
        by_cases hts : (jsTrim s).length = 0
        · simp [retainedEntry, retainedValue, hts] at ha
        · simp only [retainedEntry, retainedValue, if_neg hts, Option.map_some',
            Option.some.injEq] at ha
          rw [← ha]
          refine ⟨by simp, by simp, ?_⟩
          simp only [ne_eq, JsValue.str.injEq]
          intro hstr
          rw [hstr] at hts
          exact hts rfl
    | num q =>
        simp only [retainedEntry, retainedValue, Option.map_some', Option.some.injEq] at ha
        rw [← ha]
        exact ⟨by simp, by simp, by simp⟩
    | nan =>
        simp only [retainedEntry, retainedValue, Option.map_some', Option.some.injEq] at ha
        rw [← ha]
        exact ⟨by simp, by simp, by simp⟩
    | null => simp [retainedEntry, retainedValue] at ha
    | undef => simp [retainedEntry, retainedValue] at ha

/-- Witness for C9: a concrete filter object with a null, an
undefined, a blank-string, a padded-string and a numeric entry
sanitizes to the trimmed string and the number only. -/
theorem sanitizeFilters_spec_witness :
    lookupList "city" (sanitizeFilters
      [("city", JsValue.str " Austin "), ("state", JsValue.null),
       ("search", JsValue.str "   "), ("min_equity", JsValue.num 50000),
       ("postal_code", JsValue.undef)]) = some (JsValue.str "Austin")
    ∧ lookupList "min_equity" (sanitizeFilters
      [("city", JsValue.str " Austin "), ("state", JsValue.null),
       ("search", JsValue.str "   "), ("min_equity", JsValue.num 50000),
       ("postal_code", JsValue.undef)]) = some (JsValue.num 50000)
    ∧ (lookupList "search" (sanitizeFilters
      [("city", JsValue.str " Austin "), ("state", JsValue.null),
       ("search", JsValue.str "   "), ("min_equity", JsValue.num 50000),
       ("postal_code", JsValue.undef)])).isSome = false := by
  have h := sanitizeFilters_spec
    [("city", JsValue.str " Austin "), ("state", JsValue.null),
     ("search", JsValue.str "   "), ("min_equity", JsValue.num 50000),
     ("postal_code", JsValue.undef)] (by decide)
  refine ⟨?_, ?_, ?_⟩
  · have hc := h.2.1 "city" " Austin " (by decide) (by decide)
    have hjt : jsTrim " Austin " = "Austin" := by decide
    rw [hjt] at hc
    exact hc
  · exact h.2.2.1 "min_equity" 50000 (by with_unfolding_all rfl)
  · have hiff := h.2.2.2.1 "search"
    rw [Bool.eq_false_iff]
    intro hsome
    obtain ⟨v, hv, _, _, hstr⟩ := hiff.mp hsome
    have : v = JsValue.str "   " := by
      have : lookupList "search"
        [("city", JsValue.str " Austin "), ("state", JsValue.null),
         ("search", JsValue.str "   "), ("min_equity", JsValue.num 50000),
         ("postal_code", JsValue.undef)] = some (JsValue.str "   ") := by decide
      rw [this] at hv
      exact (Option.some.inj hv).symm
    subst this
    exact (hstr "   " rfl) (by decide)

/-! ### C10 — query-key invariance -/

/-- Strict version of `entryLE`, used to show sorted outputs with
distinct keys are unique. -/
def entryLT (a b : String × JsValue) : Prop :=
  a.1 < b.1

instance : IsAntisymm (String × JsValue) entryLT :=
  ⟨fun _ _ h₁ h₂ => absurd (lt_trans h₁ h₂) (lt_irrefl _)⟩

theorem keys_filter_nodup {l : Obj} (P : JsValue → Bool) (hnd : (keysOf l).Nodup) :
    (keysOf (l.filter (fun p => P p.2))).Nodup :=
  List.Nodup.sublist (List.Sublist.map Prod.fst (List.filter_sublist l)) hnd

theorem mem_filter_iff_lookup {l : Obj} (P : JsValue → Bool) (hnd : (keysOf l).Nodup)
    (k : String) (v : JsValue) :
    (k, v) ∈ l.filter (fun p => P p.2) ↔ lookupList k l = some v ∧ P v = true := by
  rw [List.mem_filter]
  constructor
  · rintro ⟨hmem, hP⟩
    exact ⟨lookup_eq_some_of_mem hnd hmem, hP⟩
  · rintro ⟨hlook, hP⟩
    exact ⟨mem_of_lookup_eq_some hlook, hP⟩

theorem filtered_perm_of_agree {l₁ l₂ : Obj} (h₁ : (keysOf l₁).Nodup)
    (h₂ : (keysOf l₂).Nodup)
    (hagree : ∀ k v, keepQueryEntry v = true →
      (lookupList k l₁ = some v ↔ lookupList k l₂ = some v)) :
    List.Perm (l₁.filter (fun p => keepQueryEntry p.2))
      (l₂.filter (fun p => keepQueryEntry p.2)) := by
  have hnd₁ : (l₁.filter (fun p => keepQueryEntry p.2)).Nodup :=
    List.Nodup.filter _ (List.Nodup.of_map Prod.fst h₁)
  have hnd₂ : (l₂.filter (fun p => keepQueryEntry p.2)).Nodup :=
    List.Nodup.filter _ (List.Nodup.of_map Prod.fst h₂)
  rw [List.perm_ext_iff_of_nodup hnd₁ hnd₂]
  intro a
  obtain ⟨k, v⟩ := a
  rw [mem_filter_iff_lookup _ h₁, mem_filter_iff_lookup _ h₂]
  constructor
  · rintro ⟨hlook, hP⟩
    exact ⟨(hagree k v hP).mp hlook, hP⟩
  · rintro ⟨hlook, hP⟩
    exact ⟨(hagree k v hP).mpr hlook, hP⟩

theorem sorted_entryLT_of_nodup_keys {l : Obj} (hsorted : List.Sorted entryLE l)
    (hnd : (keysOf l).Nodup) : List.Sorted entryLT l := by
  have hne : List.Pairwise (fun a b : String × JsValue => a.1 ≠ b.1) l := by
    have hmap : List.Pairwise (fun a b : String => a ≠ b) (l.map Prod.fst) := hnd
    exact List.pairwise_map.mp hmap
  exact List.Pairwise.imp₂ (fun a b hle hab => lt_of_le_of_ne hle hab) hsorted hne

/-- C10: `propertiesQueryKey` yields the same key for any two filter
objects (with distinct keys) that agree on every field whose value is
not `undefined`, `null` or the empty string — the retained entries are
sorted by field name, so the key does not depend on field insertion
order or on the presence of dropped fields. -/
theorem propertiesQueryKey_invariant (l₁ l₂ : Obj)
    (h₁ : (keysOf l₁).Nodup) (h₂ : (keysOf l₂).Nodup)
    (hagree : ∀ k v, keepQueryEntry v = true →
      (lookupList k l₁ = some v ↔ lookupList k l₂ = some v)) :
    propertiesQueryKey l₁ = propertiesQueryKey l₂
    ∧ List.Sorted entryLE (propertiesQueryKey l₁).2 := by
  set f₁ := l₁.filter (fun p => keepQueryEntry p.2) with hf₁
  set f₂ := l₂.filter (fun p => keepQueryEntry p.2) with hf₂
  have hperm : List.Perm (List.insertionSort entryLE f₁) (List.insertionSort entryLE f₂) :=
    ((List.perm_insertionSort entryLE f₁).trans
      (filtered_perm_of_agree h₁ h₂ hagree)).trans
      (List.perm_insertionSort entryLE f₂).symm
  have hs₁ : List.Sorted entryLE (List.insertionSort entryLE f₁) :=
    List.sorted_insertionSort entryLE f₁
  have hs₂ : List.Sorted entryLE (List.insertionSort entryLE f₂) :=
    List.sorted_insertionSort entryLE f₂
  have hknd₁ : (keysOf (List.insertionSort entryLE f₁)).Nodup := by
    have hp : List.Perm (keysOf (List.insertionSort entryLE f₁)) (keysOf f₁) :=
      List.Perm.map Prod.fst (List.perm_insertionSort entryLE f₁)
    exact (List.Perm.nodup_iff hp).mpr (keys_filter_nodup _ h₁)
  have hknd₂ : (keysOf (List.insertionSort entryLE f₂)).Nodup := by
    have hp : List.Perm (keysOf (List.insertionSort entryLE f₂)) (keysOf f₂) :=
      List.Perm.map Prod.fst (List.perm_insertionSort entryLE f₂)
    exact (List.Perm.nodup_iff hp).mpr (keys_filter_nodup _ h₂)
  have heq : List.insertionSort entryLE f₁ = List.insertionSort entryLE f₂ :=
    List.eq_of_perm_of_sorted hperm
      (sorted_entryLT_of_nodup_keys hs₁ hknd₁)
      (sorted_entryLT_of_nodup_keys hs₂ hknd₂)
  constructor
  · show ("properties", List.insertionSort entryLE f₁) =
      ("properties", List.insertionSort entryLE f₂)
    rw [heq]
  · exact hs₁

/-- Witness for C10: two concrete filter objects in different
insertion orders, one carrying an extra null field, produce the same
query key. -/
theorem propertiesQueryKey_invariant_witness :
    propertiesQueryKey [("city", JsValue.str "Austin"), ("min_equity", JsValue.num 50000)] =
      propertiesQueryKey
        [("min_equity", JsValue.num 50000), ("state", JsValue.null),
         ("city", JsValue.str "Austin")] := by
  have h := propertiesQueryKey_invariant
    [("city", JsValue.str "Austin"), ("min_equity", JsValue.num 50000)]
    [("min_equity", JsValue.num 50000), ("state", JsValue.null),
     ("city", JsValue.str "Austin")]
    (by decide) (by decide) ?_
  · exact h.1
  · intro k v hv
    by_cases hc : "city" = k
    · rw [← hc]
      have e₁ : lookupList "city"
          [("city", JsValue.str "Austin"), ("min_equity", JsValue.num 50000)] =
          some (JsValue.str "Austin") := by decide
      have e₂ : lookupList "city"
          [("min_equity", JsValue.num 50000), ("state", JsValue.null),
           ("city", JsValue.str "Austin")] = some (JsValue.str "Austin") := by decide
      rw [e₁, e₂]
    · by_cases hm : "min_equity" = k
      · rw [← hm]
        have e₁ : lookupList "min_equity"
            [("city", JsValue.str "Austin"), ("min_equity", JsValue.num 50000)] =
            some (JsValue.num 50000) := by with_unfolding_all rfl
        have e₂ : lookupList "min_equity"
            [("min_equity", JsValue.num 50000), ("state", JsValue.null),
             ("city", JsValue.str "Austin")] = some (JsValue.num 50000) := by
          with_unfolding_all rfl
        rw [e₁, e₂]
      · by_cases hs : "state" = k
        · rw [← hs]
          have e₁ : lookupList "state"
              [("city", JsValue.str "Austin"), ("min_equity", JsValue.num 50000)] =
              none := by decide
          have e₂ : lookupList "state"
              [("min_equity", JsValue.num 50000), ("state", JsValue.null),
               ("city", JsValue.str "Austin")] = some JsValue.null := by decide
          rw [e₁, e₂]
          constructor
          · intro hcontra
            cases hcontra
          · intro hnull
            obtain rfl := Option.some.inj hnull
            simp [keepQueryEntry] at hv
        · have e₁ : lookupList k
              [("city", JsValue.str "Austin"), ("min_equity", JsValue.num 50000)] =
              none := by
            simp [lookupList, hc, hm]
          have e₂ : lookupList k
              [("min_equity", JsValue.num 50000), ("state", JsValue.null),
               ("city", JsValue.str "Austin")] = none := by
            simp [lookupList, hc, hm, hs]
          rw [e₁, e₂]

/-! ### C4 — scoring bounds -/

theorem foldl_min_le_init (xs : List ℚ) : ∀ a : ℚ, xs.foldl min a ≤ a := by
  induction xs with
  | nil => intro a; exact le_refl a
  | cons x xs ih =>
      intro a
      exact le_trans (ih (min a x)) (min_le_left a x)

theorem foldl_min_le_mem (xs : List ℚ) : ∀ a y : ℚ, y ∈ xs → xs.foldl min a ≤ y := by
  induction xs with
  | nil => intro a y hy; simp at hy
  | cons x xs ih =>
      intro a y hy
      rcases List.mem_cons.mp hy with rfl | hy
      · exact le_trans (foldl_min_le_init xs (min a y)) (min_le_right a y)
      · exact ih (min a x) y hy

theorem init_le_foldl_max (xs : List ℚ) : ∀ a : ℚ, a ≤ xs.foldl max a := by
  induction xs with
  | nil => intro a; exact le_refl a
  | cons x xs ih =>
      intro a
      exact le_trans (le_max_left a x) (ih (max a x))

theorem mem_le_foldl_max (xs : List ℚ) : ∀ a y : ℚ, y ∈ xs → y ≤ xs.foldl max a := by
  induction xs with
  | nil => intro a y hy; simp at hy
  | cons x xs ih =>
      intro a y hy
      rcases List.mem_cons.mp hy with rfl | hy
      · exact le_trans (le_max_right a y) (init_le_foldl_max xs (max a y))
      · exact ih (max a x) y hy

theorem listMin_le_of_mem {l : List ℚ} {y : ℚ} (h : y ∈ l) : listMin l ≤ y := by
  cases l with
  | nil => simp at h
  | cons x xs =>
      rcases List.mem_cons.mp h with rfl | h
      · exact foldl_min_le_init xs y
      · exact foldl_min_le_mem xs x y h

theorem le_listMax_of_mem {l : List ℚ} {y : ℚ} (h : y ∈ l) : y ≤ listMax l := by
  cases l with
  | nil => simp at h
  | cons x xs =>
      rcases List.mem_cons.mp h with rfl | h
      · exact init_le_foldl_max xs y
      · exact mem_le_foldl_max xs x y h

theorem minmaxScaleList_bounds {l : List ℚ} {x : ℚ} (h : x ∈ minmaxScaleList l) :
    0 ≤ x ∧ x ≤ 1 := by
  unfold minmaxScaleList at h
  by_cases heq : listMax l = listMin l
  · rw [if_pos heq] at h
    obtain ⟨y, _, rfl⟩ := List.mem_map.mp h
    norm_num
  · rw [if_neg heq] at h
    obtain ⟨y, hy, rfl⟩ := List.mem_map.mp h
    have hlo : listMin l ≤ y := listMin_le_of_mem hy
    have hhi : y ≤ listMax l := le_listMax_of_mem hy
    have hlt : listMin l < listMax l :=
      lt_of_le_of_ne (le_trans hlo hhi) (fun hc => heq hc.symm)
    have hpos : (0 : ℚ) < listMax l - listMin l := sub_pos.mpr hlt
    constructor
    · exact div_nonneg (sub_nonneg.mpr hlo) (le_of_lt hpos)
    · rw [div_le_one hpos]
      exact sub_le_sub_right hhi (listMin l)

theorem clampQ_bounds (lo hi x : ℚ) (h : lo ≤ hi) :
    lo ≤ clampQ lo hi x ∧ clampQ lo hi x ≤ hi :=
  ⟨le_max_left lo _, max_le h (min_le_left hi x)⟩

theorem recencyCurve_bounds (age : ℚ) : 0 ≤ recencyCurve age ∧ recencyCurve age ≤ 1 :=
  clampQ_bounds 0 1 _ (by norm_num)

/-- C4: every scored property in a batch has all three sub-scores in
`[0,1]` and a composite score equal to
`100·(0.45·equity + 0.35·value_gap + 0.20·recency)` clamped to
`[0,100]` — hence in `[0,100]` — including for records whose equity,
value or recency inputs are entirely missing. -/
theorem scoreBatch_bounds (batch : List RawParcelRecord) (sp : ScoredProperty)
    (hmem : sp ∈ scoreBatch batch) :
    (0 ≤ sp.breakdown.equity ∧ sp.breakdown.equity ≤ 1)
    ∧ (0 ≤ sp.breakdown.value_gap ∧ sp.breakdown.value_gap ≤ 1)
    ∧ (0 ≤ sp.breakdown.recency ∧ sp.breakdown.recency ≤ 1)
    ∧ sp.score = clampQ 0 100
        (100 * ((45 / 100) * sp.breakdown.equity + (35 / 100) * sp.breakdown.value_gap
          + (20 / 100) * sp.breakdown.recency))
    ∧ 0 ≤ sp.score ∧ sp.score ≤ 100 := by
  unfold scoreBatch at hmem
  obtain ⟨p, hpzip, hpeq⟩ := List.mem_map.mp hmem
  obtain ⟨r, evr⟩ := p
  obtain ⟨e, vr⟩ := evr
  obtain ⟨v, rc⟩ := vr
  subst hpeq
  obtain ⟨_, hzip₁⟩ := List.of_mem_zip hpzip
  obtain ⟨he, hzip₂⟩ := List.of_mem_zip hzip₁
  obtain ⟨hv, hrc⟩ := List.of_mem_zip hzip₂
  have heb : 0 ≤ e ∧ e ≤ 1 := minmaxScaleList_bounds he
  have hvb : 0 ≤ v ∧ v ≤ 1 := minmaxScaleList_bounds hv
  have hrb : 0 ≤ rc ∧ rc ≤ 1 := by
    obtain ⟨age, _, rfl⟩ := List.mem_map.mp hrc
    exact recencyCurve_bounds age
  refine ⟨heb, hvb, hrb, rfl, ?_⟩
  exact clampQ_bounds 0 100 _ (by norm_num)

/-- The spec's end-to-end example batch: two fully populated parcels
and one with every scoring input missing. -/
def demoBatch : List RawParcelRecord :=
  [{ property_id := "p1", city := some "Austin", state := some "TX",
     postal_code := some "78701", estimated_equity := some 50000,
     assessed_value := some 200000, market_value := some 200000,
     transfer_age_days := some 365 },
   { property_id := "p2", city := some "Austin", state := some "TX",
     postal_code := some "78702", estimated_equity := some 150000,
     assessed_value := some 200000, market_value := some 280000,
     transfer_age_days := some 365 },
   { property_id := "p3", city := none, state := none, postal_code := none,
     estimated_equity := none, assessed_value := none, market_value := none,
     transfer_age_days := none }]

/-- The scored result for the all-missing record of `demoBatch`: both
min-max factors sit at the median and recency at the shared age. -/
def demoScoredMissing : ScoredProperty :=
  { record := { property_id := "p3", city := none, state := none, postal_code := none,
                estimated_equity := none, assessed_value := none, market_value := none,
                transfer_age_days := none }
    breakdown := { equity := 1 / 2, value_gap := 1 / 2, recency := 1 }
    score := 60 }

/-- Witness for C4 at the record of `demoBatch` with all scoring
fields missing. -/
theorem scoreBatch_bounds_witness :
    (0 ≤ demoScoredMissing.breakdown.equity ∧ demoScoredMissing.breakdown.equity ≤ 1)
    ∧ (0 ≤ demoScoredMissing.breakdown.value_gap ∧ demoScoredMissing.breakdown.value_gap ≤ 1)
    ∧ (0 ≤ demoScoredMissing.breakdown.recency ∧ demoScoredMissing.breakdown.recency ≤ 1)
    ∧ demoScoredMissing.score = clampQ 0 100
        (100 * ((45 / 100) * demoScoredMissing.breakdown.equity
          + (35 / 100) * demoScoredMissing.breakdown.value_gap
          + (20 / 100) * demoScoredMissing.breakdown.recency))
    ∧ 0 ≤ demoScoredMissing.score ∧ demoScoredMissing.score ≤ 100 := by
  have hmem : demoScoredMissing ∈ scoreBatch demoBatch := by
    have hl : scoreBatch demoBatch =
        [{ record := { property_id := "p1", city := some "Austin", state := some "TX",
                       postal_code := some "78701", estimated_equity := some 50000,
                       assessed_value := some 200000, market_value := some 200000,
                       transfer_age_days := some 365 }
           breakdown := { equity := 0, value_gap := 0, recency := 1 }
           score := 20 },
         { record := { property_id := "p2", city := some "Austin", state := some "TX",
                       postal_code := some "78702", estimated_equity := some 150000,
                       assessed_value := some 200000, market_value := some 280000,
                       transfer_age_days := some 365 }
           breakdown := { equity := 1, value_gap := 1, recency := 1 }
           score := 100 },
         demoScoredMissing] := by
      with_unfolding_all rfl
    rw [hl]
    simp
  exact scoreBatch_bounds demoBatch demoScoredMissing hmem

/-! ### C5 — lead pack shape -/

theorem leadLE_score {a b : ScoredProperty} (h : leadLE a b) : b.score ≤ a.score := by
  rcases (Prod.Lex.le_iff _ _).mp h with hlt | ⟨heq, _⟩
  · have : -a.score < -b.score := hlt
    linarith
  · have : -a.score = -b.score := heq
    linarith

/-- C5: every pack produced by the grouper holds at most `packSize`
records, sorted descending by composite score; its `total` is the full
size of the group before truncation, so `total` is at least the length
of `top_properties`. -/
theorem groupLeads_pack_shape (props : List ScoredProperty) (groupByField : String)
    (packSize : Nat) (key : ScoredProperty → String) (packs : List LeadPack)
    (pack : LeadPack) (hkey : groupKeyFn groupByField = some key)
    (hok : groupLeads props groupByField packSize = Except.ok packs)
    (hmem : pack ∈ packs) :
    pack.top_properties.length ≤ packSize
    ∧ List.Sorted (fun a b : ScoredProperty => b.score ≤ a.score) pack.top_properties
    ∧ pack.total = (props.filter (fun p => key p = pack.label)).length
    ∧ pack.top_properties.length ≤ pack.total := by
  have hpacks : groupLeads props groupByField packSize =
      Except.ok (groupLeadsWithKey props key packSize) := by
    unfold groupLeads
    rw [hkey]
  have hpeq : packs = groupLeadsWithKey props key packSize :=
    (Except.ok.inj (hpacks.symm.trans hok)).symm
  subst hpeq
  unfold groupLeadsWithKey at hmem
  rw [List.mem_insertionSort] at hmem
  obtain ⟨lb, _, rfl⟩ := List.mem_map.mp hmem
  refine ⟨?_, ?_, rfl, ?_⟩
  · rw [List.length_take]
    exact min_le_left _ _
  · have hsorted : List.Sorted leadLE
        (List.insertionSort leadLE (props.filter (fun p => key p = lb))) :=
      List.sorted_insertionSort leadLE _
    have htake := List.Pairwise.sublist (List.take_sublist packSize _) hsorted
    exact htake.imp (fun h => leadLE_score h)
  · rw [List.length_take]
    have hlen : (List.insertionSort leadLE (props.filter (fun p => key p = lb))).length =
        (props.filter (fun p => key p = lb)).length :=
      (List.perm_insertionSort leadLE _).length_eq
    calc min packSize (List.insertionSort leadLE (props.filter (fun p => key p = lb))).length
        ≤ (List.insertionSort leadLE (props.filter (fun p => key p = lb))).length :=
          min_le_right _ _
      _ = (props.filter (fun p => key p = lb)).length := hlen

/-- A three-record scored list: two records share postal code 78701,
one sits in 78702. -/
def packDemoProps : List ScoredProperty :=
  [{ record := { property_id := "a", city := some "Austin", state := some "TX",
                 postal_code := some "78701", estimated_equity := none,
                 assessed_value := none, market_value := none, transfer_age_days := none }
     breakdown := { equity := 1, value_gap := 1, recency := 1 }
     score := 100 },
   { record := { property_id := "b", city := some "Austin", state := some "TX",
                 postal_code := some "78701", estimated_equity := none,
                 assessed_value := none, market_value := none, transfer_age_days := none }
     breakdown := { equity := 0, value_gap := 0, recency := 1 }
     score := 20 },
   { record := { property_id := "c", city := some "Austin", state := some "TX",
                 postal_code := some "78702", estimated_equity := none,
                 assessed_value := none, market_value := none, transfer_age_days := none }
     breakdown := { equity := 1 / 2, value_gap := 1 / 2, recency := 1 }
     score := 60 }]

/-- The 78701 pack produced from `packDemoProps` with pack size 1: two
records in the group, only the top-scoring one retained. -/
def packDemo78701 : LeadPack :=
  { label := "78701"
    total := 2
    top_properties :=
      [{ record := { property_id := "a", city := some "Austin", state := some "TX",
                     postal_code := some "78701", estimated_equity := none,
                     assessed_value := none, market_value := none,
                     transfer_age_days := none }
         breakdown := { equity := 1, value_gap := 1, recency := 1 }
         score := 100 }] }

/-- Witness for C5 at the concrete 78701 pack: one retained record out
of a group of two, truncated to pack size 1. -/
theorem groupLeads_pack_shape_witness :
    packDemo78701.top_properties.length ≤ 1
    ∧ List.Sorted (fun a b : ScoredProperty => b.score ≤ a.score) packDemo78701.top_properties
    ∧ packDemo78701.total =
        (packDemoProps.filter
          (fun p => (p.record.postal_code).getD "" = packDemo78701.label)).length
    ∧ packDemo78701.top_properties.length ≤ packDemo78701.total := by
  have hok : groupLeads packDemoProps "postal_code" 1 =
      Except.ok (groupLeadsWithKey packDemoProps
        (fun p => (p.record.postal_code).getD "") 1) := by
    with_unfolding_all rfl
  have hmem : packDemo78701 ∈ groupLeadsWithKey packDemoProps
      (fun p => (p.record.postal_code).getD "") 1 := by
    have hval : groupLeadsWithKey packDemoProps
        (fun p => (p.record.postal_code).getD "") 1 =
        [packDemo78701,
         { label := "78702"
           total := 1
           top_properties :=
             [{ record := { property_id := "c", city := some "Austin", state := some "TX",
                            postal_code := some "78702", estimated_equity := none,
                            assessed_value := none, market_value := none,
                            transfer_age_days := none }
                breakdown := { equity := 1 / 2, value_gap := 1 / 2, recency := 1 }
                score := 60 }] }] := by
      with_unfolding_all rfl
    rw [hval]
    simp
  exact groupLeads_pack_shape packDemoProps "postal_code" 1
    (fun p => (p.record.postal_code).getD "") _ packDemo78701
    (by with_unfolding_all rfl) hok hmem

end LeadRadar
